import Mathlib

/-
Verification of the progress.md coordination layer of flakectl.

The functions below are shallow embeddings of the Python functions in
src/flakectl/progressfile.py (and their byte-for-byte duplicates in
src/flakectl/classify.py).  A document is modeled as a list of
characters.  The Python code manipulates documents exclusively through
a handful of fixed regular expressions; each such regex operation is
embedded as an executable function whose semantics follows Python's
re module on the concrete patterns used:

  * re.search/re.findall scan left to right and return the leftmost
    match; a lazy group (.*?) takes the least length that lets the rest
    of the pattern match, i.e. it stops at the first occurrence of the
    following literal.
  * re.sub/re.subn treat the replacement string as a template,
    compiled before scanning for matches: doubled backslashes, the
    letter escapes a b f n r t v, octal escapes and group references
    (backslash-digit and backslash-g<number>) are expanded, unknown
    non-letter escapes stay literally, and the remaining escapes raise
    (see parseTemplateF for the full case analysis).  Functions that
    can raise return Option, with none standing for a raised
    exception.
  * The character class for a regex \s (and str.strip) is modeled by
    the six ASCII whitespace characters, matching Python on the ASCII
    documents this format uses.

File I/O is abstracted away: each Python function that reads and
writes progress.md is embedded as a function from document content to
document content (or to the content it writes elsewhere).
-/

namespace Flakectl

abbrev Chars := List Char

def chars (s : String) : Chars := s.data

/-- RUN_BLOCK_RE delimiter pieces: "<!-- BEGIN RUN (\d+) -->(.*?)<!-- END RUN \1 -->". -/
def beginMarkPre : Chars := chars "<!-- BEGIN RUN "

def arrowMark : Chars := chars " -->"

def beginMark (rid : Chars) : Chars := beginMarkPre ++ rid ++ arrowMark

def endMark (rid : Chars) : Chars := chars "<!-- END RUN " ++ rid ++ arrowMark

def catStartMark : Chars := chars "<!-- CATEGORIES START -->"

def catEndMark : Chars := chars "<!-- CATEGORIES END -->"

/-- The literal that the status regexes use: "- \*\*status\*\*: " followed by the status. -/
def statusField (status : Chars) : Chars := chars "- **status**: " ++ status

def pendingLine : Chars := statusField (chars "pending")

def errorLine : Chars := statusField (chars "error")

/-- Position of the leftmost occurrence of pat in s (re.search on a literal). -/
def findIn (s pat : Chars) : Option Nat :=
  if List.isPrefixOf pat s then some 0
  else
    match s with
    | [] => none
    | _ :: t => (findIn t pat).map (· + 1)

/-- Position of the leftmost occurrence of pat in s at or after index i. -/
def findFrom (s pat : Chars) (i : Nat) : Option Nat :=
  (findIn (List.drop i s) pat).map (· + i)

def sliceAt (s : Chars) (p len : Nat) : Chars := List.take len (List.drop p s)

/-- Leftmost match span of "(<!-- BEGIN RUN rid -->.*?<!-- END RUN rid -->)" with rid
escaped to a literal (used by split_progress, merge_run): start position and length.
The lazy body ends at the first end marker after the begin marker; if the first
begin-marker occurrence has no end marker after it then no later occurrence has one
either, so the whole search fails, as in Python. -/
def extractSpan (s rid : Chars) : Option (Nat × Nat) :=
  match findIn s (beginMark rid) with
  | none => none
  | some p =>
    match findFrom s (endMark rid) (p + (beginMark rid).length) with
    | none => none
    | some q => some (p, q + (endMark rid).length - p)

def extractRecord (s rid : Chars) : Option Chars :=
  (extractSpan s rid).map (fun pr => sliceAt s pr.1 pr.2)

/-- One match attempt of RUN_BLOCK_RE at the head of s: the id is the maximal
nonempty run of digits (the backslash-one backreference forces the end marker to
carry the same digits), the body is lazy.  Returns (id, body, total match length). -/
def tryBlockAt (s : Chars) : Option (Chars × Chars × Nat) :=
  if List.isPrefixOf beginMarkPre s then
    let rest := List.drop beginMarkPre.length s
    let rid := List.takeWhile Char.isDigit rest
    if rid.isEmpty then none
    else
      let afterId := List.drop rid.length rest
      if List.isPrefixOf arrowMark afterId then
        let body0 := List.drop arrowMark.length afterId
        match findIn body0 (endMark rid) with
        | none => none
        | some q =>
          some (rid, List.take q body0,
            beginMarkPre.length + rid.length + arrowMark.length + q + (endMark rid).length)
      else none
  else none

/-- Scanner for re.findall(RUN_BLOCK_RE, content, re.DOTALL): walks the string
one character at a time, with skip counting the characters of the current
match that remain to be passed over before scanning resumes. -/
def findRunBlocksAux : Nat → Chars → List (Chars × Chars)
  | _, [] => []
  | skip + 1, _ :: rest => findRunBlocksAux skip rest
  | 0, c :: rest =>
    match tryBlockAt (c :: rest) with
    | some (rid, body, k) => (rid, body) :: findRunBlocksAux (k - 1) rest
    | none => findRunBlocksAux 0 rest

/-- re.findall(RUN_BLOCK_RE, content, re.DOTALL): all non-overlapping (id, body)
pairs, scanning left to right and resuming after each match. -/
def findRunBlocks (s : Chars) : List (Chars × Chars) := findRunBlocksAux 0 s

/-- get_runs_by_status: ids of blocks whose body contains the status literal. -/
def get_runs_by_status (content status : Chars) : List Chars :=
  ((findRunBlocks content).filter
    (fun b => (findIn b.2 (statusField status)).isSome)).map (fun b => b.1)

def get_pending_runs (content : Chars) : List Chars :=
  get_runs_by_status content (chars "pending")

def get_done_runs (content : Chars) : List Chars :=
  get_runs_by_status content (chars "done")

def is_run_done (run_file_content : Chars) (rid : Chars) : Bool :=
  rid ∈ get_runs_by_status run_file_content (chars "done")

def is_run_classified (run_file_content : Chars) (rid : Chars) : Bool :=
  rid ∈ get_runs_by_status run_file_content (chars "classified")

/-- Python's \s on the ASCII range (also used for str.strip). -/
def pySpace (c : Char) : Bool :=
  c == ' ' || c == '\t' || c == '\n' || c == '\r' || c == '\x0b' || c == '\x0c'

def pyStrip (s : Chars) : Chars :=
  ((s.dropWhile pySpace).reverse.dropWhile pySpace).reverse

def fieldMark (field : Chars) : Chars := chars "- **" ++ field ++ chars "**:"

/-- parse_field(text, field): re.search(r"- \*\*field\*\*:\s*(.*)", text) and strip.
The greedy \s* also skips newlines, after which (.*) captures to the end of the
line (or of the text). -/
def parse_field (text field : Chars) : Chars :=
  match findIn text (fieldMark field) with
  | none => []
  | some p =>
    let rest := List.drop (p + (fieldMark field).length) text
    let afterWs := rest.dropWhile pySpace
    pyStrip (afterWs.takeWhile (fun c => c != '\n'))

def jobHeadMark : Chars := chars "#### job: `"

def jobSplitMark : Chars := chars "#### job:"

/-- One match attempt of "#### job: `[^`]+`(.*?)(?=#### job:|\Z)" at the head of s:
returns (body group, length consumed).  The lazy body stops at the next occurrence
of the lookahead literal, which is not consumed. -/
def tryJobAt (s : Chars) : Option (Chars × Nat) :=
  if List.isPrefixOf jobHeadMark s then
    let rest := List.drop jobHeadMark.length s
    let name := rest.takeWhile (fun c => c != '`')
    if name.isEmpty then none
    else
      match List.drop name.length rest with
      | [] => none
      | _ :: afterTick =>
        let bl := match findIn afterTick jobSplitMark with
          | some q => q
          | none => afterTick.length
        some (List.take bl afterTick, jobHeadMark.length + name.length + 1 + bl)
  else none

/-- Scanner for the job pattern, in the same one-character-step style as
findRunBlocksAux. -/
def findJobsAux : Nat → Chars → List Chars
  | _, [] => []
  | skip + 1, _ :: rest => findJobsAux skip rest
  | 0, c :: rest =>
    match tryJobAt (c :: rest) with
    | some (body, k) => body :: findJobsAux (k - 1) rest
    | none => findJobsAux 0 rest

/-- re.findall of the job pattern over a run body (group 1 only, as in the
rebuild code). -/
def findJobs (s : Chars) : List Chars := findJobsAux 0 s

/-- VALID_CATEGORY_PREFIXES membership via str.startswith. -/
def validCategoryStart (cat : Chars) : Bool :=
  List.isPrefixOf (chars "test-flake/") cat || List.isPrefixOf (chars "infra-flake/") cat ||
  List.isPrefixOf (chars "bug/") cat || List.isPrefixOf (chars "build-error/") cat

def catKeyOf (cat_val : Chars) : Chars :=
  let parts := List.splitOn '/' cat_val
  if 2 ≤ parts.length then List.intercalate (chars "/") (List.take 2 parts) else cat_val

def truncateSummary (s : Chars) : Chars :=
  if s ≠ [] ∧ 120 < s.length then List.take 117 s ++ chars "..." else s

def statusOkForCats (body : Chars) : Bool :=
  let st := parse_field body (chars "status")
  st == chars "done" || st == chars "classified"

/-- The body of the job loop in rebuild_categories_section: record the first
summary seen for a new two-segment category key (the summary is stored even
when it is empty; only the key guards insertion). -/
def addJobCat (cats : List (Chars × Chars)) (job_body : Chars) : List (Chars × Chars) :=
  let cat_val := parse_field job_body (chars "category")
  if cat_val ≠ [] ∧ validCategoryStart cat_val then
    let cat_key := catKeyOf cat_val
    if cats.any (fun pr => pr.1 == cat_key) then cats
    else cats ++ [(cat_key, truncateSummary (parse_field job_body (chars "summary")))]
  else cats

def addRunCats (cats : List (Chars × Chars)) (body : Chars) : List (Chars × Chars) :=
  if statusOkForCats body then (findJobs body).foldl addJobCat cats else cats

/-- The cats dict built by rebuild_categories_section, in insertion order. -/
def computeCats (content : Chars) : List (Chars × Chars) :=
  (findRunBlocks content).foldl (fun cats b => addRunCats cats b.2) []

/-- Python string comparison: lexicographic by code point. -/
def charsLt : Chars → Chars → Bool
  | [], [] => false
  | [], _ :: _ => true
  | _ :: _, [] => false
  | a :: s, b :: t => if a = b then charsLt s t else decide (a < b)

def insertSorted (k : Chars) : List Chars → List Chars
  | [] => [k]
  | x :: xs => if charsLt x k then x :: insertSorted k xs else k :: x :: xs

/-- sorted(...) on a list of strings (keys are distinct when used, so any
correct ascending sort agrees with Python's). -/
def sortKeys (l : List Chars) : List Chars := l.foldr insertSorted []

def catLine (cats : List (Chars × Chars)) (k : Chars) : Chars :=
  let desc := (List.lookup k cats).getD []
  if desc ≠ [] then chars "- `" ++ k ++ chars "` -- " ++ desc
  else chars "- `" ++ k ++ chars "`"

/-- The section text rebuilt by rebuild_categories_section. -/
def renderSection (cats : List (Chars × Chars)) : Chars :=
  if cats ≠ [] then
    List.intercalate (chars "\n") ((sortKeys (cats.map (fun pr => pr.1))).map (catLine cats))
  else chars "(none yet)"

/-- Pieces of a parsed re.sub replacement template: literal characters and
group references (group 0 is the whole match). -/
inductive TmplPiece
  | lit (c : Char)
  | group (n : Nat)
deriving DecidableEq

def isOctalDigit (c : Char) : Bool := '0' ≤ c && c ≤ '7'

def digitVal (c : Char) : Nat := c.toNat - '0'.toNat

def digitsVal (ds : Chars) : Nat := ds.foldl (fun n c => n * 10 + digitVal c) 0

def octVal (ds : Chars) : Nat := ds.foldl (fun n c => n * 8 + digitVal c) 0

/-- The ASCII-letter escapes Python expands in replacement templates
(a, b, f, n, r, t, v); every other ASCII letter after a backslash is a
bad-escape error. -/
def escapeChar (c : Char) : Option Char :=
  if c = 'a' then some '\x07'
  else if c = 'b' then some '\x08'
  else if c = 'f' then some '\x0C'
  else if c = 'n' then some '\n'
  else if c = 'r' then some '\x0D'
  else if c = 't' then some '\t'
  else if c = 'v' then some '\x0B'
  else none

/-- Fuel-indexed parser for a re.sub replacement string, following CPython's
parse_template for a pattern with ngroups unnamed capture groups:
  * a doubled backslash is a literal backslash;
  * backslash-g<digits> is a group reference, an error when the number
    exceeds ngroups (group 0, the whole match, is always valid); any other
    backslash-g form is an error (the patterns used define no named groups,
    so every name raises);
  * backslash-0 plus up to two octal digits is an octal character escape;
  * backslash followed by one of the digits 1-9: if two more digits follow
    and all three are octal it is a three-digit octal escape (an error above
    octal 377), otherwise the one- or two-digit number is a group reference,
    an error when it exceeds ngroups;
  * a backslash before an ASCII letter expands per escapeChar or is a
    bad-escape error;
  * a backslash before any other character stays in the text literally
    (backslash included);
  * a trailing backslash is an error.
Errors are none, standing for the exception re.subn raises (re.error, or
IndexError for an unknown group name); Python compiles the template before
scanning for matches.  Each step consumes at least one character, so fuel
exceeding the length never runs out. -/
def parseTemplateF (ngroups : Nat) : Nat → Chars → Option (List TmplPiece)
  | _, [] => some []
  | 0, _ :: _ => none
  | fuel + 1, c :: rest =>
    if c = '\\' then
      match rest with
      | [] => none
      | c2 :: rest2 =>
        if c2 = '\\' then
          (parseTemplateF ngroups fuel rest2).map (fun t => TmplPiece.lit '\\' :: t)
        else if c2 = 'g' then
          match rest2 with
          | '<' :: rest3 =>
            let ds := rest3.takeWhile Char.isDigit
            match rest3.drop ds.length with
            | '>' :: rest4 =>
              if ds ≠ [] ∧ digitsVal ds ≤ ngroups then
                (parseTemplateF ngroups fuel rest4).map
                  (fun t => TmplPiece.group (digitsVal ds) :: t)
              else none
            | _ => none
          | _ => none
        else if c2 = '0' then
          let os := (rest2.takeWhile isOctalDigit).take 2
          (parseTemplateF ngroups fuel (rest2.drop os.length)).map
            (fun t => TmplPiece.lit (Char.ofNat (octVal os)) :: t)
        else if c2.isDigit then
          match rest2 with
          | d2 :: rest3 =>
            if d2.isDigit then
              match rest3 with
              | d3 :: rest4 =>
                if isOctalDigit c2 ∧ isOctalDigit d2 ∧ isOctalDigit d3 then
                  if octVal [c2, d2, d3] ≤ 255 then
                    (parseTemplateF ngroups fuel rest4).map
                      (fun t => TmplPiece.lit (Char.ofNat (octVal [c2, d2, d3])) :: t)
                  else none
                else if digitsVal [c2, d2] ≤ ngroups then
                  (parseTemplateF ngroups fuel rest3).map
                    (fun t => TmplPiece.group (digitsVal [c2, d2]) :: t)
                else none
              | [] =>
                if digitsVal [c2, d2] ≤ ngroups then
                  (parseTemplateF ngroups fuel rest3).map
                    (fun t => TmplPiece.group (digitsVal [c2, d2]) :: t)
                else none
            else
              if digitVal c2 ≤ ngroups then
                (parseTemplateF ngroups fuel rest2).map
                  (fun t => TmplPiece.group (digitVal c2) :: t)
              else none
          | [] =>
            if digitVal c2 ≤ ngroups then
              (parseTemplateF ngroups fuel rest2).map
                (fun t => TmplPiece.group (digitVal c2) :: t)
            else none
        else if c2.isAlpha then
          match escapeChar c2 with
          | some e => (parseTemplateF ngroups fuel rest2).map (fun t => TmplPiece.lit e :: t)
          | none => none
        else
          (parseTemplateF ngroups fuel rest2).map
            (fun t => TmplPiece.lit '\\' :: TmplPiece.lit c2 :: t)
    else (parseTemplateF ngroups fuel rest).map (fun t => TmplPiece.lit c :: t)

/-- Parse a replacement string as Python's re module does (see
parseTemplateF); none is the raising case. -/
def parseTemplate (ngroups : Nat) (t : Chars) : Option (List TmplPiece) :=
  parseTemplateF ngroups (t.length + 1) t

/-- Expand a parsed template against the match: group 0 is the whole match
and other group numbers take the corresponding capture (the patterns used
have at most one group, which parseTemplate has already bounded by
ngroups). -/
def expandTemplate (t : List TmplPiece) (g0 g1 : Chars) : Chars :=
  t.flatMap (fun p => match p with
    | TmplPiece.lit c => [c]
    | TmplPiece.group 0 => g0
    | TmplPiece.group _ => g1)

/-- merge_run(progress, run_id, run_file, expected_status), as a function of the
two file contents.  Returns none when re.subn raises on the replacement
template, otherwise some (return value, resulting progress content).  Note the
matched private record is passed to re.subn as the replacement string, so it
is template-expanded against the match in the document (the whole pattern is
parenthesized, so group 0 and group 1 are both the old record). -/
def merge_run (content run_content rid expected_status : Chars) : Option (Bool × Chars) :=
  match extractRecord run_content rid with
  | none => some (false, content)
  | some recTxt =>
    match parseTemplate 1 recTxt with
    | none => none
    | some tmpl =>
      match extractSpan content rid with
      | none => some (false, content)
      | some qr =>
        let g1 := sliceAt content qr.1 qr.2
        let newContent :=
          List.take qr.1 content ++ expandTemplate tmpl g1 g1 ++
            List.drop (qr.1 + qr.2) content
        if rid ∈ get_runs_by_status newContent expected_status
        then some (true, newContent)
        else some (false, newContent)

/-- The document content that merge_run writes before its verification scan
(defined when the private record exists, its template parses, and the
document has a matching span). -/
def mergedContent (content run_content rid : Chars) : Option Chars :=
  match extractRecord run_content rid with
  | none => none
  | some recTxt =>
    match parseTemplate 1 recTxt with
    | none => none
    | some tmpl =>
      match extractSpan content rid with
      | none => none
      | some qr =>
        some (List.take qr.1 content ++
          expandTemplate tmpl (sliceAt content qr.1 qr.2) (sliceAt content qr.1 qr.2) ++
          List.drop (qr.1 + qr.2) content)

/-- One re.sub(count=1) step of mark_runs_as_error for a single id: the pattern
"(<!-- BEGIN RUN rid -->.*?)- \*\*status\*\*: pending" matches from the first
begin marker to the first pending status literal anywhere after it (the lazy
group is not confined to the record), and the replacement rewrites that
literal to error. -/
def markRunError (content rid : Chars) : Chars :=
  match findIn content (beginMark rid) with
  | none => content
  | some p =>
    match findFrom content pendingLine (p + (beginMark rid).length) with
    | none => content
    | some q => List.take q content ++ errorLine ++ List.drop (q + pendingLine.length) content

def mark_runs_as_error (content : Chars) (run_ids : List Chars) : Chars :=
  run_ids.foldl markRunError content

/-- Python dict assignment m[k] = v. -/
def dictInsert (m : List (Chars × Chars)) (k v : Chars) : List (Chars × Chars) :=
  if m.any (fun pr => pr.1 == k) then
    m.map (fun pr => if pr.1 == k then (pr.1, v) else pr)
  else m ++ [(k, v)]

/-- split_progress(progress, run_ids), with each written per-run file
represented by its content (the matched record plus a trailing newline);
requested ids with no record are skipped. -/
def split_progress (content : Chars) (run_ids : List Chars) : List (Chars × Chars) :=
  run_ids.foldl
    (fun m rid =>
      match extractRecord content rid with
      | none => m
      | some txt => dictInsert m rid (txt ++ chars "\n"))
    []

/-- rebuild_categories_section as a function of the document content.  The new
section is spliced over the lazy span from the first CATEGORIES START marker
to the first CATEGORIES END marker after it; the f-string replacement is a
re.sub template, so backslash sequences in a summary are expanded (group 0 is
the old section span) or raise (none) when invalid. -/
def rebuild_categories_section (content : Chars) : Option Chars :=
  let sect := renderSection (computeCats content)
  let repl := catStartMark ++ chars "\n" ++ sect ++ chars "\n" ++ catEndMark
  match parseTemplate 0 repl with
  | none => none
  | some tmpl =>
    match findIn content catStartMark with
    | none => some content
    | some p =>
      match findFrom content catEndMark (p + catStartMark.length) with
      | none => some content
      | some q =>
        some (List.take p content ++
          expandTemplate tmpl (sliceAt content p (q + catEndMark.length - p)) [] ++
          List.drop (q + catEndMark.length) content)

/-- run_orchestrator (classify.py lines 519-555), with the external-agent phase
_classify_all abstracted as a parameter taking the document content after the
split/marking steps and returning (new document content, done ids,
unfinished ids).  Only the document-content thread is modeled; logging and
per-run file writes are side effects outside the document. -/
def run_orchestrator (classify : Chars → Chars × List Chars × List Chars)
    (content : Chars) : Chars :=
  let pending := get_pending_runs content
  if pending = [] then content
  else
    let run_files := split_progress content pending
    let run_ids := pending.filter (fun rid => run_files.any (fun pr => pr.1 == rid))
    let missing := sortKeys ((pending.filter
      (fun rid => ¬ run_files.any (fun pr => pr.1 == rid))).dedup)
    let content1 := if missing ≠ [] then mark_runs_as_error content missing else content
    if run_ids = [] then content1
    else
      let res := classify content1
      let unfinished := sortKeys ((res.2.2 ++ missing).dedup)
      if unfinished ≠ [] then mark_runs_as_error res.1 unfinished else res.1

/-- The exit-code computation at the end of run (classify.py lines 617-623):
0 when get_done_runs on the final document is nonempty, else 1. -/
def run_exit (final_content : Chars) : Nat :=
  if get_done_runs final_content = [] then 1 else 0

/-
Scheduling model for the worker pool of _classify_all / _run_and_merge
(classify.py lines 236-448).  Each worker task passes, in program order,
through the milestones of _run_and_merge: the phase-1 classify query, the
preliminary merge (with its categories rebuild), the phase-2 recheck query,
and the final merge (with its rebuild).  A worker that crashes or returns
early simply stops, so a worker's observed history is a prefix of the full
milestone list.  The cooperative scheduler interleaves worker steps
arbitrarily at await points; a schedule is a finite list of
(worker index, milestone) events.
-/

inductive WStep
  | phase1Classify
  | prelimMerge
  | phase2Recheck
  | finalMerge
deriving DecidableEq

/-- The milestones of _run_and_merge in program order. -/
def workerTrace : List WStep :=
  [WStep.phase1Classify, WStep.prelimMerge, WStep.phase2Recheck, WStep.finalMerge]

/-- The subsequence of schedule events belonging to worker i. -/
def wproj (s : List (Nat × WStep)) (i : Nat) : List WStep :=
  (s.filter (fun e => e.1 == i)).map (fun e => e.2)

/-- A schedule of n workers is admissible when every event belongs to a
launched worker and every worker's own events follow the program order of
_run_and_merge (a prefix of workerTrace, allowing early exit). -/
def admissibleSched (n : Nat) (s : List (Nat × WStep)) : Bool :=
  s.all (fun e => e.1 < n) &&
    (List.range n).all (fun i => List.isPrefixOf (wproj s i) workerTrace)

/-- A schedule in which every worker runs to completion (no crashes). -/
def completeSched (n : Nat) (s : List (Nat × WStep)) : Bool :=
  (List.range n).all (fun i => wproj s i == workerTrace)

/-
Derived views of the category scan, used to state facts about
rebuild_categories_section.
-/

/-- The two-segment key a job contributes to the index, when its category
field is nonempty and carries a valid type prefix. -/
def jobCatKey (job_body : Chars) : Option Chars :=
  let cat_val := parse_field job_body (chars "category")
  if cat_val ≠ [] ∧ validCategoryStart cat_val then some (catKeyOf cat_val) else none

/-- The (key, truncated summary) pair a job contributes to the index scan. -/
def jobEntry (job_body : Chars) : Option (Chars × Chars) :=
  (jobCatKey job_body).map
    (fun k => (k, truncateSummary (parse_field job_body (chars "summary"))))

/-- All (key, summary) pairs of the rebuild scan, in document order:
jobs of blocks whose status is done or classified, keyed and truncated. -/
def catPairs (content : Chars) : List (Chars × Chars) :=
  ((findRunBlocks content).filter (fun b => statusOkForCats b.2)).flatMap
    (fun b => (findJobs b.2).filterMap jobEntry)

/-- Insert a pair only when its key is not yet present (the dict update
discipline of the rebuild loop). -/
def insertIfAbsent (cats : List (Chars × Chars)) (pr : Chars × Chars) :
    List (Chars × Chars) :=
  if cats.any (fun x => x.1 == pr.1) then cats else cats ++ [pr]

/-- Modelled from the spec: the value the specification prescribes for an
index key, namely the first non-empty summary seen for that key over the
same scan (spec section 3, Index Entry).  Stated only to compare with the
code's computeCats. -/
def specFirstNonEmptySummary (content key : Chars) : Option Chars :=
  ((catPairs content).find? (fun pr => pr.1 == key && !pr.2.isEmpty)).map (fun pr => pr.2)

/-
Concrete documents used by counterexamples and witnesses.
-/

def docDonePending : Chars :=
  chars "<!-- BEGIN RUN 1 -->\n- **status**: done\n<!-- END RUN 1 -->\n<!-- BEGIN RUN 2 -->\n- **status**: pending\n<!-- END RUN 2 -->\n"

def docPendingOne : Chars :=
  chars "<!-- BEGIN RUN 1 -->\n- **status**: pending\n<!-- END RUN 1 -->\n"

def runFileBackrefDone : Chars :=
  chars "<!-- BEGIN RUN 1 -->\n- **status**: done\n\\1<!-- END RUN 1 -->\n"

def runFileBadEscapeDone : Chars :=
  chars "<!-- BEGIN RUN 1 -->\n- **status**: done\n\\q<!-- END RUN 1 -->\n"

def docEmptyFirstSummary : Chars :=
  chars "<!-- BEGIN RUN 1 -->\n- **status**: classified\n#### job: `j1`\n- **category**: bug/x\n- **summary**:\n#### job: `j2`\n- **category**: bug/x/y\n- **summary**: hello\n<!-- END RUN 1 -->\n"

def docMarkerInSummary : Chars :=
  chars "<!-- CATEGORIES START -->\n(none yet)\n<!-- CATEGORIES END -->\n<!-- BEGIN RUN 1 -->\n- **status**: done\n#### job: `j1`\n- **category**: bug/x\n- **summary**: a <!-- CATEGORIES END --> b\n<!-- END RUN 1 -->\n"

def docDoneOnly : Chars :=
  chars "<!-- BEGIN RUN 3 -->\n- **status**: done\n<!-- END RUN 3 -->\n"

def docErrorOnly : Chars :=
  chars "<!-- BEGIN RUN 4 -->\n- **status**: error\n<!-- END RUN 4 -->\n"

def docAlphaId : Chars :=
  chars "<!-- BEGIN RUN ab -->\n- **status**: pending\n<!-- END RUN ab -->\n"

def runFileAlphaDone : Chars :=
  chars "<!-- BEGIN RUN ab -->\n- **status**: done\n<!-- END RUN ab -->\n"

def docEmptyCategories : Chars :=
  chars "<!-- CATEGORIES START -->\nx\n<!-- CATEGORIES END -->\n"

def docEmptyCategoriesRebuilt : Chars :=
  chars "<!-- CATEGORIES START -->\n(none yet)\n<!-- CATEGORIES END -->\n"

/-- The schedule refuting the barrier claim: worker 0 runs through phase 2
and its final merge before worker 1 performs any step. -/
def schedSerial : List (Nat × WStep) :=
  [(0, WStep.phase1Classify), (0, WStep.prelimMerge),
   (0, WStep.phase2Recheck), (0, WStep.finalMerge),
   (1, WStep.phase1Classify), (1, WStep.prelimMerge),
   (1, WStep.phase2Recheck), (1, WStep.finalMerge)]

/-- A one-worker schedule up to the phase-2 query. -/
def schedSingle : List (Nat × WStep) :=
  [(0, WStep.phase1Classify), (0, WStep.prelimMerge), (0, WStep.phase2Recheck)]

/-- The record held in runFileBackrefDone. -/
def recordBackref : Chars :=
  chars "<!-- BEGIN RUN 1 -->\n- **status**: done\n\\1<!-- END RUN 1 -->"

/-- What merge_run actually writes for docPendingOne and runFileBackrefDone:
the backslash-one in the private record expands to the old document record. -/
def mergedBackrefResult : Chars :=
  chars "<!-- BEGIN RUN 1 -->\n- **status**: done\n<!-- BEGIN RUN 1 -->\n- **status**: pending\n<!-- END RUN 1 --><!-- END RUN 1 -->\n"

def runFileCleanDone : Chars :=
  chars "<!-- BEGIN RUN 1 -->\n- **status**: done\n<!-- END RUN 1 -->\n"

def recordClean : Chars :=
  chars "<!-- BEGIN RUN 1 -->\n- **status**: done\n<!-- END RUN 1 -->"

def mergedCleanResult : Chars :=
  chars "<!-- BEGIN RUN 1 -->\n- **status**: done\n<!-- END RUN 1 -->\n"

/-
Theorems.
-/

set_option maxRecDepth 16000

/-- C2 (code_bug evidence): in a document where run 1 is done and run 2 is
pending, mark_runs_as_error on run 1 alone is not a no-op: the lazy group of
its pattern crosses the record boundary and flips run 2 from pending to
error, while run 1 itself stays done. -/
theorem mark_runs_as_error_cross_record_clobber :
    get_runs_by_status docDonePending (chars "done") = [chars "1"] ∧
      get_runs_by_status docDonePending (chars "pending") = [chars "2"] ∧
      mark_runs_as_error docDonePending [chars "1"] ≠ docDonePending ∧
      get_runs_by_status (mark_runs_as_error docDonePending [chars "1"])
        (chars "error") = [chars "2"] ∧
      get_runs_by_status (mark_runs_as_error docDonePending [chars "1"])
        (chars "done") = [chars "1"] := by
  decide

/-- C1 (counterexample): a serial schedule of two complete workers is
admissible for the pool logic of _classify_all, and in it worker 0 performs
its phase-2 recheck before worker 1 has completed (or even started) phase 1:
there is no barrier. -/
theorem classify_no_barrier_interleaving :
    admissibleSched 2 schedSerial = true ∧ completeSched 2 schedSerial = true ∧
      schedSerial[2]? = some (0, WStep.phase2Recheck) ∧
      (1, WStep.prelimMerge) ∉ schedSerial.take 2 := by
  decide

/-- C3 (counterexample): merge_run can succeed while writing something other
than the verbatim private record: with a backslash-one in the private record
the written document is the record with the old document record spliced in,
not the prior document with the span replaced by the record text. -/
theorem merge_run_template_not_verbatim :
    merge_run docPendingOne runFileBackrefDone (chars "1") (chars "done")
        = some (true, mergedBackrefResult) ∧
      extractRecord runFileBackrefDone (chars "1") = some recordBackref ∧
      extractSpan docPendingOne (chars "1") = some (0, 61) ∧
      mergedBackrefResult ≠
        List.take 0 docPendingOne ++ recordBackref ++ List.drop 61 docPendingOne := by
  decide

/-- C4 (counterexample): a private record containing the escape sequence
backslash-q makes merge_run raise (modeled as none) instead of returning
True or False, although the private record and the document span both
exist. -/
theorem merge_run_raises_on_bad_escape :
    extractRecord runFileBadEscapeDone (chars "1") ≠ none ∧
      extractSpan docPendingOne (chars "1") ≠ none ∧
      merge_run docPendingOne runFileBadEscapeDone (chars "1") (chars "done") = none := by
  decide

/-- C5 (counterexample): when the first job of a key has an empty summary and
a later job of the same key has a non-empty one, the rebuild keeps the empty
first summary, not the first non-empty summary the spec prescribes. -/
theorem computeCats_keeps_first_summary_even_empty :
    computeCats docEmptyFirstSummary = [(chars "bug/x", [])] ∧
      specFirstNonEmptySummary docEmptyFirstSummary (chars "bug/x")
        = some (chars "hello") := by
  decide

/-- C6 (counterexample): rebuilding twice differs from rebuilding once when a
kept summary contains the CATEGORIES END marker, because the second rebuild
splices over the lazy span ending at the marker inside the summary line. -/
theorem rebuild_categories_section_not_idempotent :
    (rebuild_categories_section docMarkerInSummary).bind rebuild_categories_section ≠
      rebuild_categories_section docMarkerInSummary := by
  decide

/-- C9 (counterexample): on a document with no pending item and no done item,
the run mutates nothing but reports failure (exit code 1), not success. -/
theorem run_no_pending_reports_failure :
    get_pending_runs docErrorOnly = [] ∧
      run_orchestrator (fun c => (c, [], [])) docErrorOnly = docErrorOnly ∧
      run_exit (run_orchestrator (fun c => (c, [], [])) docErrorOnly) = 1 := by
  decide

/-- C8: the run exit code is 0 exactly when some run block of the final
document carries the done status. -/
theorem run_exit_zero_iff_done_nonempty (final_content : Chars) :
    run_exit final_content = 0 ↔
      ∃ b ∈ findRunBlocks final_content,
        (findIn b.2 (statusField (chars "done"))).isSome := by
  rw [run_exit]
  split_ifs with h
  · simp only [get_done_runs, get_runs_by_status, List.map_eq_nil_iff,
      List.filter_eq_nil_iff] at h
    constructor
    · intro h10; exact absurd h10 (by decide)
    · rintro ⟨b, hb, hs⟩
      exact absurd hs (by simpa using h b hb)
  · constructor
    · intro _
      obtain ⟨x, hx⟩ := List.exists_mem_of_ne_nil _ h
      simp only [get_done_runs, get_runs_by_status, List.mem_map,
        List.mem_filter] at hx
      obtain ⟨b, ⟨hb, hp⟩, _⟩ := hx
      exact ⟨b, hb, hp⟩
    · intro _; rfl

/-- C8 witness: a document with one done run exits 0. -/
theorem run_exit_zero_iff_done_nonempty_witness : run_exit docDoneOnly = 0 :=
  (run_exit_zero_iff_done_nonempty docDoneOnly).mpr
    ⟨(chars "3", chars "\n- **status**: done\n"), by decide, by decide⟩

/-- C9 (amended): with no pending item the run leaves the document unchanged,
and it reports success exactly when some item is already done (otherwise it
exits nonzero). -/
theorem run_orchestrator_no_pending_no_mutation
    (classify : Chars → Chars × List Chars × List Chars) (content : Chars)
    (h : get_pending_runs content = []) :
    run_orchestrator classify content = content ∧
      (run_exit content = 0 ↔ get_done_runs content ≠ []) := by
  constructor
  · simp [run_orchestrator, h]
  · rw [run_exit]
    split_ifs with h2
    · simp [h2]
    · simp [h2]

/-- C9 witness: a no-pending document with a done run is untouched and
reports success. -/
theorem run_orchestrator_no_pending_no_mutation_witness :
    run_orchestrator (fun c => (c, [], [])) docDoneOnly = docDoneOnly ∧
      (run_exit docDoneOnly = 0 ↔ get_done_runs docDoneOnly ≠ []) :=
  run_orchestrator_no_pending_no_mutation _ docDoneOnly (by decide)

lemma wproj_count (s : List (Nat × WStep)) (i : Nat) (st : WStep) :
    List.count st (wproj s i) = List.count (i, st) s := by
  induction s with
  | nil => rfl
  | cons e s ih =>
    rcases e with ⟨j, st2⟩
    by_cases hj : j = i
    · subst hj
      by_cases hs : st2 = st
      · subst hs
        simp [wproj, List.filter_cons, List.count_cons, ← ih, wproj]
      · have h1 : (st2 == st) = false := by simp [hs]
        have h2 : (((j : Nat), st2) == (j, st)) = false := by simp [hs]
        simp [wproj, List.filter_cons, List.count_cons, h1, h2, ← ih, wproj]
    · have h2 : (((j : Nat), st2) == (i, st)) = false := by simp [hj]
      simp [wproj, List.filter_cons, List.count_cons, hj, h2, ← ih, wproj]

lemma count_le_of_isPrefixOf_workerTrace (v : List WStep)
    (h : List.isPrefixOf v workerTrace = true) :
    List.count WStep.phase2Recheck v ≤ List.count WStep.prelimMerge v := by
  have hp : v <+: workerTrace := List.isPrefixOf_iff_prefix.mp h
  have hv : v = workerTrace.take v.length := List.prefix_iff_eq_take.mp hp
  have hl : v.length ≤ 4 := by
    have := hp.length_le
    simpa [workerTrace] using this
  have hcase : v.length = 0 ∨ v.length = 1 ∨ v.length = 2 ∨ v.length = 3 ∨
      v.length = 4 := by omega
  rcases hcase with h0 | h0 | h0 | h0 | h0 <;> rw [h0] at hv <;> rw [hv] <;> decide

/-- C1 (amended): under the pool logic of _classify_all there is no global
gate: the only ordering guarantee is per-worker, namely that in every
admissible schedule a worker performs its phase-2 recheck only after its own
preliminary (phase-1) merge.  Workers are never made to wait for other
workers' phase-1 completion. -/
theorem classify_phase2_after_own_prelim_merge
    (n : Nat) (s : List (Nat × WStep)) (h : admissibleSched n s = true)
    (t j : Nat) (ht : s[t]? = some (j, WStep.phase2Recheck)) :
    ∃ u, u < t ∧ s[u]? = some (j, WStep.prelimMerge) := by
  have hall : s.all (fun e => e.1 < n) = true ∧
      (List.range n).all (fun i => List.isPrefixOf (wproj s i) workerTrace) = true := by
    simpa [admissibleSched, Bool.and_eq_true] using h
  obtain ⟨hlt, hget⟩ := List.getElem?_eq_some.mp ht
  have hmem : (j, WStep.phase2Recheck) ∈ s := by
    rw [← hget]; exact List.getElem_mem hlt
  have hjn : j < n := by
    have := List.all_eq_true.mp hall.1 _ hmem
    simpa using this
  have hpre : List.isPrefixOf (wproj s j) workerTrace = true :=
    List.all_eq_true.mp hall.2 j (List.mem_range.mpr hjn)
  have hsplit : wproj s j = wproj (s.take (t + 1)) j ++ wproj (s.drop (t + 1)) j := by
    conv_lhs => rw [← List.take_append_drop (t + 1) s]
    rw [wproj, wproj, wproj, List.filter_append, List.map_append]
  have hpre2 : List.isPrefixOf (wproj (s.take (t + 1)) j) workerTrace = true := by
    rw [List.isPrefixOf_iff_prefix] at hpre ⊢
    exact List.IsPrefix.trans ⟨wproj (s.drop (t + 1)) j, hsplit.symm⟩ hpre
  have hcnt := count_le_of_isPrefixOf_workerTrace _ hpre2
  rw [wproj_count, wproj_count] at hcnt
  have htake : s.take (t + 1) = s.take t ++ [(j, WStep.phase2Recheck)] := by
    rw [List.take_succ, ht]; rfl
  rw [htake, List.count_append, List.count_append] at hcnt
  have hc1 : List.count ((j : Nat), WStep.phase2Recheck)
      [((j : Nat), WStep.phase2Recheck)] = 1 := by simp
  have hc2 : List.count ((j : Nat), WStep.prelimMerge)
      [((j : Nat), WStep.phase2Recheck)] = 0 := by simp
  rw [hc1, hc2] at hcnt
  have hpos : 0 < List.count ((j : Nat), WStep.prelimMerge) (s.take t) := by omega
  have hmem2 : ((j : Nat), WStep.prelimMerge) ∈ s.take t := List.count_pos_iff.mp hpos
  obtain ⟨u, hu, hgu⟩ := List.getElem_of_mem hmem2
  have hut : u < t := by
    have := List.length_take_le t s
    omega
  refine ⟨u, hut, ?_⟩
  have h1 : (s.take t)[u]? = some (j, WStep.prelimMerge) := by
    rw [List.getElem?_eq_getElem hu, hgu]
  rw [List.getElem?_take] at h1
  rwa [if_pos hut] at h1

/-- C1 witness: for a single worker reaching its phase-2 step at index 2, the
preliminary merge indeed occurred earlier. -/
theorem classify_phase2_after_own_prelim_merge_witness :
    ∃ u, u < 2 ∧ schedSingle[u]? = some (0, WStep.prelimMerge) :=
  classify_phase2_after_own_prelim_merge 1 schedSingle (by decide) 2 0 (by decide)

set_option maxHeartbeats 1000000 in
lemma parseTemplateF_of_no_backslash (ngroups : Nat) :
    ∀ (fuel : Nat) (t : Chars), t.length < fuel → '\\' ∉ t →
      parseTemplateF ngroups fuel t = some (t.map TmplPiece.lit) := by
  intro fuel
  induction fuel with
  | zero => intro t hlen _; omega
  | succ fuel ih =>
    intro t hlen h
    match t with
    | [] => rfl
    | c :: rest =>
      have hc : ¬ c = '\\' := by
        intro he; exact h (he ▸ List.mem_cons_self c rest)
      have hrest : '\\' ∉ rest := fun hm => h (List.mem_cons_of_mem _ hm)
      have hlen2 : rest.length < fuel := by
        simp only [List.length_cons] at hlen
        omega
      rw [parseTemplateF.eq_def]
      dsimp only
      rw [if_neg hc, ih rest hlen2 hrest]
      rfl

lemma parseTemplate_of_no_backslash (ngroups : Nat) (t : Chars) (h : '\\' ∉ t) :
    parseTemplate ngroups t = some (t.map TmplPiece.lit) :=
  parseTemplateF_of_no_backslash ngroups (t.length + 1) t (by omega) h

lemma expandTemplate_map_lit (t : Chars) (g0 g1 : Chars) :
    expandTemplate (t.map TmplPiece.lit) g0 g1 = t := by
  induction t with
  | nil => rfl
  | cons c rest ih => simp [expandTemplate] at ih ⊢; exact ih

/-- C3 (amended): whenever merge_run succeeds and the private record contains
no backslash, the written document is the prior document with exactly the
record span replaced by the verbatim private record text, every byte outside
the span unchanged.  (With a backslash in the record, re.sub expands it as a
replacement template instead, as the counterexample shows.) -/
theorem merge_run_verbatim_replacement
    (content run_content rid expected_status : Chars)
    (p len : Nat) (hc : extractSpan content rid = some (p, len))
    (recTxt : Chars) (hr : extractRecord run_content rid = some recTxt)
    (hb : '\\' ∉ recTxt)
    (d : Chars)
    (hm : merge_run content run_content rid expected_status = some (true, d)) :
    d = List.take p content ++ recTxt ++ List.drop (p + len) content := by
  unfold merge_run at hm
  rw [hr] at hm
  dsimp only at hm
  rw [parseTemplate_of_no_backslash 1 recTxt hb] at hm
  dsimp only at hm
  rw [hc] at hm
  dsimp only at hm
  rw [expandTemplate_map_lit] at hm
  split_ifs at hm with hv
  · simpa using hm.symm
  · simp at hm

/-- C3 witness: a backslash-free merge writes the record verbatim over its
span. -/
theorem merge_run_verbatim_replacement_witness :
    mergedCleanResult =
      List.take 0 docPendingOne ++ recordClean ++ List.drop 61 docPendingOne :=
  merge_run_verbatim_replacement docPendingOne runFileCleanDone (chars "1")
    (chars "done") 0 61 (by decide) recordClean (by decide) (by decide)
    mergedCleanResult (by decide)

/-- C4 (amended): merge_run returns False precisely when the private file has
no delimited record for the item, or the record's replacement template parses
but the document has no matching span, or the post-write verification scan
misses the item at the expected status; it returns True precisely when the
write happened and verification passed; and it raises (none) precisely when
the private record exists but its replacement-template parse fails (an
unknown letter escape, an invalid or malformed group reference, an
out-of-range octal escape, or a trailing backslash — valid escapes such as
doubled backslashes, control-character and octal escapes and group
references are expanded and do not raise). -/
theorem merge_run_return_value_conditions
    (content run_content rid expected_status : Chars) :
    (merge_run content run_content rid expected_status = none ↔
      ∃ recTxt, extractRecord run_content rid = some recTxt ∧
        parseTemplate 1 recTxt = none)
    ∧ ((∃ d, merge_run content run_content rid expected_status = some (false, d)) ↔
      (extractRecord run_content rid = none
        ∨ (∃ recTxt, extractRecord run_content rid = some recTxt ∧
            (parseTemplate 1 recTxt).isSome ∧ extractSpan content rid = none)
        ∨ (∃ d, mergedContent content run_content rid = some d ∧
            rid ∉ get_runs_by_status d expected_status)))
    ∧ ((∃ d, merge_run content run_content rid expected_status = some (true, d)) ↔
      (∃ d, mergedContent content run_content rid = some d ∧
        rid ∈ get_runs_by_status d expected_status)) := by
  rcases h1 : extractRecord run_content rid with _ | recTxt
  · refine ⟨?_, ?_, ?_⟩ <;> simp [merge_run, mergedContent, h1]
  · rcases h2 : parseTemplate 1 recTxt with _ | tmpl
    · refine ⟨?_, ?_, ?_⟩ <;> simp [merge_run, mergedContent, h1, h2]
    · rcases h3 : extractSpan content rid with _ | qr
      · refine ⟨?_, ?_, ?_⟩ <;> simp [merge_run, mergedContent, h1, h2, h3]
      · by_cases hv : rid ∈ get_runs_by_status
            (List.take qr.1 content ++
              (expandTemplate tmpl (sliceAt content qr.1 qr.2) (sliceAt content qr.1 qr.2) ++
                List.drop (qr.1 + qr.2) content)) expected_status
        · refine ⟨?_, ?_, ?_⟩ <;> simp [merge_run, mergedContent, h1, h2, h3, hv]
        · refine ⟨?_, ?_, ?_⟩ <;> simp [merge_run, mergedContent, h1, h2, h3, hv]

/-- C4 witness: a clean merge into a matching document returns True. -/
theorem merge_run_return_value_conditions_witness :
    ∃ d, merge_run docPendingOne runFileCleanDone (chars "1") (chars "done")
      = some (true, d) :=
  (merge_run_return_value_conditions docPendingOne runFileCleanDone (chars "1")
      (chars "done")).2.2.mpr ⟨mergedCleanResult, by decide, by decide⟩

lemma findIn_isPrefixOf (s pat : Chars) (p : Nat) (h : findIn s pat = some p) :
    List.isPrefixOf pat (List.drop p s) = true := by
  induction s generalizing p with
  | nil =>
    unfold findIn at h
    split_ifs at h with hp
    cases h; simpa using hp
  | cons c t ih =>
    unfold findIn at h
    split_ifs at h with hp
    · cases h; simpa using hp
    · dsimp only at h
      rcases hfind : findIn t pat with _ | p0 <;> rw [hfind] at h
      · cases h
      · simp only [Option.map_some'] at h
        cases h
        simpa using ih p0 hfind

lemma findIn_le_length (s pat : Chars) (p : Nat) (h : findIn s pat = some p) :
    p ≤ s.length := by
  induction s generalizing p with
  | nil =>
    unfold findIn at h
    split_ifs at h with hp
    cases h; simp
  | cons c t ih =>
    unfold findIn at h
    split_ifs at h with hp
    · cases h; simp
    · dsimp only at h
      rcases hfind : findIn t pat with _ | p0 <;> rw [hfind] at h
      · cases h
      · simp only [Option.map_some'] at h
        cases h
        have := ih p0 hfind
        simp only [List.length_cons]
        omega

lemma findIn_add_length_le (s pat : Chars) (p : Nat) (h : findIn s pat = some p) :
    p + pat.length ≤ s.length := by
  have hp := findIn_isPrefixOf s pat p h
  have h1 := (List.isPrefixOf_iff_prefix.mp hp).length_le
  have h2 := findIn_le_length s pat p h
  rw [List.length_drop] at h1
  omega

lemma findFrom_isPrefixOf (s pat : Chars) (i q : Nat) (hpat : pat ≠ [])
    (h : findFrom s pat i = some q) :
    List.isPrefixOf pat (List.drop q s) = true ∧ i ≤ q ∧ q + pat.length ≤ s.length := by
  unfold findFrom at h
  rcases hfind : findIn (List.drop i s) pat with _ | q0 <;> rw [hfind] at h
  · cases h
  · simp only [Option.map_some'] at h
    cases h
    have hpre := findIn_isPrefixOf _ _ _ hfind
    have hlen := findIn_add_length_le _ _ _ hfind
    have hpos : 0 < pat.length := List.length_pos.mpr hpat
    rw [List.drop_drop] at hpre
    rw [List.length_drop] at hlen
    refine ⟨?_, by omega, by omega⟩
    rw [Nat.add_comm i q0] at hpre
    exact hpre

lemma prefix_of_isPrefixOf (pat s : Chars) (h : List.isPrefixOf pat s = true) :
    ∃ t, s = pat ++ t := by
  obtain ⟨t, ht⟩ := List.isPrefixOf_iff_prefix.mp h
  exact ⟨t, ht.symm⟩

/-- An extracted record is the verbatim delimited text: begin marker, middle,
end marker. -/
lemma endMark_ne_nil (rid : Chars) : endMark rid ≠ [] := by
  simp [endMark, chars]

lemma extractRecord_shape (s rid txt : Chars)
    (h : extractRecord s rid = some txt) :
    ∃ mid, txt = beginMark rid ++ mid ++ endMark rid := by
  unfold extractRecord extractSpan at h
  rcases h1 : findIn s (beginMark rid) with _ | p <;> rw [h1] at h <;> dsimp only at h
  · cases h
  · rcases h2 : findFrom s (endMark rid) (p + (beginMark rid).length) with _ | q <;>
      rw [h2] at h <;> dsimp only at h
    · cases h
    · simp only [Option.map_some'] at h
      obtain ⟨hpreE, hiq, hqlen⟩ := findFrom_isPrefixOf _ _ _ _ (endMark_ne_nil rid) h2
      have hpreB := findIn_isPrefixOf _ _ _ h1
      obtain ⟨t1, ht1⟩ := prefix_of_isPrefixOf _ _ hpreB
      obtain ⟨t2, ht2⟩ := prefix_of_isPrefixOf _ _ hpreE
      cases h
      refine ⟨List.take (q - p - (beginMark rid).length) (List.drop (p + (beginMark rid).length) s), ?_⟩
      have hlenB : q + (endMark rid).length - p =
          (beginMark rid).length + ((q - p - (beginMark rid).length) + (endMark rid).length) := by
        omega
      rw [sliceAt, hlenB, ht1, List.take_append_eq_append_take]
      have ht1len : t1 = List.drop (p + (beginMark rid).length) s := by
        have : List.drop (beginMark rid).length (List.drop p s) =
            List.drop (beginMark rid).length (beginMark rid ++ t1) := by rw [ht1]
        rw [List.drop_drop, List.drop_left] at this
        rw [← this, Nat.add_comm]
      have hb1 : List.take (beginMark rid).length (beginMark rid) = beginMark rid :=
        List.take_of_length_le (le_refl _)
      have hb2 : (beginMark rid).length + ((q - p - (beginMark rid).length) +
          (endMark rid).length) - (beginMark rid).length =
          (q - p - (beginMark rid).length) + (endMark rid).length := by omega
      rw [List.take_of_length_le (by omega : (beginMark rid).length ≤
        (beginMark rid).length + ((q - p - (beginMark rid).length) + (endMark rid).length)),
        hb2, List.take_add, ← ht1len]
      have hdrop : List.drop (q - p - (beginMark rid).length) t1 = List.drop q s := by
        rw [ht1len, List.drop_drop]
        have : p + (beginMark rid).length + (q - p - (beginMark rid).length) = q := by omega
        rw [this]
      rw [hdrop, ht2, List.take_left, List.append_assoc]

lemma lookup_of_no_key (k : Chars) (l : List (Chars × Chars))
    (h : l.any (fun pr => pr.1 == k) = false) :
    List.lookup k l = none := by
  induction l with
  | nil => rfl
  | cons a l ih =>
    rcases a with ⟨a1, a2⟩
    simp only [List.any_cons, Bool.or_eq_false_iff] at h
    have hk : (k == a1) = false := by
      rw [beq_eq_false_iff_ne]
      intro he
      rw [beq_eq_false_iff_ne] at *
      exact h.1 he.symm
    simp [List.lookup_cons, hk, ih h.2]

lemma lookup_append_of_no_key (k : Chars) (l1 l2 : List (Chars × Chars))
    (h : l1.any (fun pr => pr.1 == k) = false) :
    List.lookup k (l1 ++ l2) = List.lookup k l2 := by
  induction l1 with
  | nil => rfl
  | cons a l ih =>
    rcases a with ⟨a1, a2⟩
    simp only [List.any_cons, Bool.or_eq_false_iff] at h
    have hk : (k == a1) = false := by
      rw [beq_eq_false_iff_ne]
      intro he
      rw [beq_eq_false_iff_ne] at *
      exact h.1 he.symm
    simp [List.lookup_cons, hk, ih h.2]

lemma lookup_map_replace (m : List (Chars × Chars)) (k v : Chars)
    (h : m.any (fun pr => pr.1 == k) = true) :
    List.lookup k (m.map (fun pr => if pr.1 == k then (pr.1, v) else pr)) = some v := by
  induction m with
  | nil => simp at h
  | cons a l ih =>
    rcases a with ⟨a1, a2⟩
    by_cases hk : a1 = k
    · subst hk
      simp [List.lookup_cons]
    · have hb : (a1 == k) = false := beq_eq_false_iff_ne.mpr hk
      have hb2 : (k == a1) = false := beq_eq_false_iff_ne.mpr (fun he => hk he.symm)
      have h2 : l.any (fun pr => pr.1 == k) = true := by
        simp only [List.any_cons, hb, Bool.false_or] at h
        exact h
      simp only [List.map_cons, if_neg (by simp [hk] : ¬ ((a1 == k) = true))]
      simp only [List.lookup_cons, hb2]
      simpa using ih h2

lemma lookup_map_replace_ne (m : List (Chars × Chars)) (k v k2 : Chars)
    (h : (k2 == k) = false) :
    List.lookup k2 (m.map (fun pr => if pr.1 == k then (pr.1, v) else pr)) =
      List.lookup k2 m := by
  induction m with
  | nil => rfl
  | cons a l ih =>
    rcases a with ⟨a1, a2⟩
    by_cases hk : a1 = k
    · subst hk
      simp only [List.map_cons]
      simp only [List.lookup_cons, h]
      simp only [beq_self_eq_true, if_pos]
      simp only [List.lookup_cons, h]
      simpa using ih
    · simp only [List.map_cons, if_neg (by simp [hk] : ¬ ((a1 == k) = true))]
      by_cases hk2 : k2 = a1
      · subst hk2
        simp [List.lookup_cons]
      · have hb2 : (k2 == a1) = false := beq_eq_false_iff_ne.mpr hk2
        simp only [List.lookup_cons, hb2]
        simpa using ih

lemma lookup_append_single_ne (m : List (Chars × Chars)) (k v k2 : Chars)
    (h : (k2 == k) = false) :
    List.lookup k2 (m ++ [(k, v)]) = List.lookup k2 m := by
  induction m with
  | nil => simp [List.lookup_cons, h]
  | cons a l ih =>
    rcases a with ⟨a1, a2⟩
    by_cases hk2 : k2 = a1
    · subst hk2
      simp [List.lookup_cons]
    · have hb2 : (k2 == a1) = false := beq_eq_false_iff_ne.mpr hk2
      simp [List.lookup_cons, hb2, ih]

lemma lookup_dictInsert_self (m : List (Chars × Chars)) (k v : Chars) :
    List.lookup k (dictInsert m k v) = some v := by
  unfold dictInsert
  split_ifs with h
  · exact lookup_map_replace m k v h
  · have hf : m.any (fun pr => pr.1 == k) = false := by
      rwa [Bool.not_eq_true] at h
    rw [lookup_append_of_no_key k m _ hf]
    simp [List.lookup_cons]

lemma lookup_dictInsert_ne (m : List (Chars × Chars)) (k v k2 : Chars)
    (h : (k2 == k) = false) :
    List.lookup k2 (dictInsert m k v) = List.lookup k2 m := by
  unfold dictInsert
  split_ifs with hany
  · exact lookup_map_replace_ne m k v k2 h
  · exact lookup_append_single_ne m k v k2 h

lemma split_progress_foldl (content : Chars) (ids : List Chars)
    (m : List (Chars × Chars)) (rid : Chars) :
    List.lookup rid (ids.foldl
        (fun m i =>
          match extractRecord content i with
          | none => m
          | some txt => dictInsert m i (txt ++ chars "\n")) m) =
      if rid ∈ ids ∧ (extractRecord content rid).isSome = true
      then (extractRecord content rid).map (fun t => t ++ chars "\n")
      else List.lookup rid m := by
  induction ids generalizing m with
  | nil => simp
  | cons i ids ih =>
    rw [List.foldl_cons]
    by_cases hri : rid = i
    · subst hri
      rcases hrec : extractRecord content rid with _ | txt
      · rw [ih]
        simp [hrec]
      · rw [ih]
        by_cases hm : rid ∈ ids
        · simp [hm, hrec]
        · simp [hm, hrec, lookup_dictInsert_self]
    · have hstep : List.lookup rid
          (match extractRecord content i with
            | none => m
            | some txt => dictInsert m i (txt ++ chars "\n")) = List.lookup rid m := by
        rcases hrec : extractRecord content i with _ | txt
        · rfl
        · exact lookup_dictInsert_ne m i _ rid (by simpa using hri)
      rw [ih, hstep]
      simp [List.mem_cons, hri]

/-- C7: the split result maps exactly the requested ids whose delimited
records exist (requested ids without a record are silently omitted), each to
the verbatim record text plus a trailing newline; and an extracted record is
delimited by its begin and end markers (so the file ends in a single trailing
newline). -/
theorem split_progress_lookup_spec (content : Chars) (run_ids : List Chars)
    (rid : Chars) :
    (List.lookup rid (split_progress content run_ids) =
      if rid ∈ run_ids
      then (extractRecord content rid).map (fun t => t ++ chars "\n")
      else none)
    ∧ (∀ txt, extractRecord content rid = some txt →
        ∃ mid, txt = beginMark rid ++ mid ++ endMark rid) := by
  constructor
  · unfold split_progress
    rw [split_progress_foldl]
    rcases hrec : extractRecord content rid with _ | txt
    · simp [hrec]
    · simp [hrec]
  · intro txt h
    exact extractRecord_shape content rid txt h

/-- C7 witness: splitting a present id yields the delimited record plus one
newline, and the record has the delimited shape. -/
theorem split_progress_lookup_spec_witness :
    ∃ mid, recordClean = beginMark (chars "1") ++ mid ++ endMark (chars "1") :=
  (split_progress_lookup_spec runFileCleanDone [chars "1"] (chars "1")).2
    recordClean (by decide)

lemma lookup_append_of_key (k : Chars) (l1 l2 : List (Chars × Chars))
    (h : l1.any (fun pr => pr.1 == k) = true) :
    List.lookup k (l1 ++ l2) = List.lookup k l1 := by
  induction l1 with
  | nil => simp at h
  | cons a l ih =>
    rcases a with ⟨a1, a2⟩
    by_cases hk : (k == a1) = true
    · simp [List.lookup_cons, hk]
    · have hk2 : (a1 == k) = false := by
        rw [beq_eq_false_iff_ne]
        rw [Bool.not_eq_true, beq_eq_false_iff_ne] at hk
        exact fun he => hk he.symm
      have h2 : l.any (fun pr => pr.1 == k) = true := by
        simp only [List.any_cons, hk2, Bool.false_or] at h
        exact h
      simp only [Bool.not_eq_true] at hk
      simp [List.lookup_cons, hk, ih h2]

lemma addJobCat_eq (cats : List (Chars × Chars)) (jb : Chars) :
    addJobCat cats jb =
      match jobEntry jb with
      | none => cats
      | some pr => insertIfAbsent cats pr := by
  unfold addJobCat jobEntry jobCatKey insertIfAbsent
  dsimp only
  by_cases hA : parse_field jb (chars "category") ≠ [] ∧
      validCategoryStart (parse_field jb (chars "category")) = true
  · rw [if_pos hA, if_pos hA]
    rfl
  · rw [if_neg hA, if_neg hA]
    rfl

lemma foldl_addJobCat_eq (jbs : List Chars) (acc : List (Chars × Chars)) :
    jbs.foldl addJobCat acc = (jbs.filterMap jobEntry).foldl insertIfAbsent acc := by
  induction jbs generalizing acc with
  | nil => rfl
  | cons jb jbs ih =>
    rw [List.foldl_cons, addJobCat_eq]
    rcases hje : jobEntry jb with _ | pr
    · simp only [hje, List.filterMap_cons, ih]
    · simp only [hje, List.filterMap_cons, List.foldl_cons, ih]

lemma foldl_addRunCats_eq (bs : List (Chars × Chars)) (acc : List (Chars × Chars)) :
    bs.foldl (fun cats b => addRunCats cats b.2) acc =
      ((bs.filter (fun b => statusOkForCats b.2)).flatMap
        (fun b => (findJobs b.2).filterMap jobEntry)).foldl insertIfAbsent acc := by
  induction bs generalizing acc with
  | nil => rfl
  | cons b bs ih =>
    rw [List.foldl_cons]
    by_cases hst : statusOkForCats b.2 = true
    · rw [show addRunCats acc b.2 = (findJobs b.2).foldl addJobCat acc by
        unfold addRunCats; rw [if_pos hst]]
      rw [foldl_addJobCat_eq]
      simp only [List.filter_cons, hst, if_pos, List.flatMap_cons, List.foldl_append, ih]
    · rw [show addRunCats acc b.2 = acc by
        unfold addRunCats; rw [if_neg hst]]
      simp only [List.filter_cons, hst]
      simp only [Bool.false_eq_true, if_false, ih]

lemma computeCats_eq_foldl (content : Chars) :
    computeCats content = (catPairs content).foldl insertIfAbsent [] := by
  unfold computeCats catPairs
  rw [foldl_addRunCats_eq]

lemma lookup_foldl_insertIfAbsent (l : List (Chars × Chars))
    (acc : List (Chars × Chars)) (key : Chars) :
    List.lookup key (l.foldl insertIfAbsent acc) =
      if acc.any (fun pr => pr.1 == key) then List.lookup key acc
      else (l.find? (fun pr => pr.1 == key)).map (fun pr => pr.2) := by
  induction l generalizing acc with
  | nil =>
    simp only [List.foldl_nil, List.find?_nil, Option.map_none']
    split_ifs with h
    · rfl
    · exact lookup_of_no_key key acc (by rwa [Bool.not_eq_true] at h)
  | cons pr l ih =>
    rcases pr with ⟨k1, v1⟩
    rw [List.foldl_cons, ih]
    by_cases hacc : acc.any (fun x => x.1 == k1) = true
    · rw [show insertIfAbsent acc (k1, v1) = acc by unfold insertIfAbsent; rw [if_pos hacc]]
      by_cases hkey : acc.any (fun x => x.1 == key) = true
      · rw [if_pos hkey, if_pos hkey]
      · rw [if_neg hkey, if_neg hkey]
        have hk1 : (k1 == key) = false := by
          rw [beq_eq_false_iff_ne]
          intro he
          subst he
          exact hkey hacc
        simp [List.find?_cons, hk1]
    · rw [show insertIfAbsent acc (k1, v1) = acc ++ [(k1, v1)] by
        unfold insertIfAbsent; rw [if_neg hacc]]
      by_cases hkey : acc.any (fun x => x.1 == key) = true
      · have hany2 : (acc ++ [(k1, v1)]).any (fun x => x.1 == key) = true := by
          simp [List.any_append, hkey]
        rw [if_pos hany2, if_pos hkey]
        exact lookup_append_of_key key acc _ hkey
      · by_cases hk1 : (k1 == key) = true
        · have hany2 : (acc ++ [(k1, v1)]).any (fun x => x.1 == key) = true := by
            simp [List.any_append, hk1]
          rw [if_pos hany2, if_neg hkey]
          have hlk : List.lookup key (acc ++ [(k1, v1)]) = some v1 := by
            rw [lookup_append_of_no_key key acc _ (by rwa [Bool.not_eq_true] at hkey)]
            have : (key == k1) = true := by
              rw [beq_iff_eq] at *
              exact hk1.symm
            simp [List.lookup_cons, this]
          rw [hlk]
          simp [List.find?_cons, hk1]
        · have hany2 : (acc ++ [(k1, v1)]).any (fun x => x.1 == key) = false := by
            have h1 : acc.any (fun x => x.1 == key) = false := by
              rwa [Bool.not_eq_true] at hkey
            have h2 : (k1 == key) = false := by
              rwa [Bool.not_eq_true] at hk1
            simp [List.any_append, h1, h2]
          rw [if_neg (by simp [hany2]), if_neg hkey]
          have h2 : (k1 == key) = false := by
            rwa [Bool.not_eq_true] at hk1
          simp [List.find?_cons, h2]

/-- C5 (amended): the rebuilt index maps each two-segment category key to the
summary of the first job encountered with that key, scanning blocks with
status done or classified in document order and skipping jobs without a
validly prefixed nonempty category; the kept summary (truncated with an
ellipsis when longer than 120 characters) is used even when it is empty, in
which case the entry is rendered without a description. -/
theorem computeCats_lookup_first_key_match (content : Chars) (key : Chars) :
    List.lookup key (computeCats content) =
      ((catPairs content).find? (fun pr => pr.1 == key)).map (fun pr => pr.2) := by
  rw [computeCats_eq_foldl, lookup_foldl_insertIfAbsent]
  simp

/-- C5 witness: the characterization evaluated on the counterexample
document. -/
theorem computeCats_lookup_first_key_match_witness :
    List.lookup (chars "bug/x") (computeCats docEmptyFirstSummary) =
      ((catPairs docEmptyFirstSummary).find?
        (fun pr => pr.1 == chars "bug/x")).map (fun pr => pr.2) :=
  computeCats_lookup_first_key_match docEmptyFirstSummary (chars "bug/x")

/-- C6 (amended): the category rebuild is idempotent on documents whose
categories section is uniquely delimited and whose record scan and rendered
section are undisturbed by the rewrite: if the rebuilt document locates the
section markers exactly around the freshly written section, computes the same
category map, and the section text is backslash-free, then rebuilding again
returns the same document.  (Without these conditions idempotence fails, as
the counterexample with a section marker inside a summary shows.) -/
theorem rebuild_categories_section_idem
    (content d : Chars) (p q : Nat)
    (h1 : findIn content catStartMark = some p)
    (h2 : findFrom content catEndMark (p + catStartMark.length) = some q)
    (hb : '\\' ∉ catStartMark ++ chars "\n" ++ renderSection (computeCats content) ++
      chars "\n" ++ catEndMark)
    (hr : rebuild_categories_section content = some d)
    (hc : computeCats d = computeCats content)
    (h4 : findIn d catStartMark = some p)
    (h5 : findFrom d catEndMark (p + catStartMark.length) =
      some (p + catStartMark.length + 1 +
        (renderSection (computeCats content)).length + 1)) :
    rebuild_categories_section d = some d := by
  have hparse := parseTemplate_of_no_backslash 0 _ hb
  unfold rebuild_categories_section at hr
  dsimp only at hr
  rw [hparse] at hr
  dsimp only at hr
  rw [h1] at hr
  dsimp only at hr
  rw [h2] at hr
  dsimp only at hr
  rw [expandTemplate_map_lit] at hr
  have hd := (Option.some.inj hr).symm
  have hple : p ≤ content.length := findIn_le_length _ _ _ h1
  have htkp : (List.take p content).length = p := by
    rw [List.length_take, min_eq_left hple]
  unfold rebuild_categories_section
  dsimp only
  rw [hc, hparse]
  dsimp only
  rw [h4]
  dsimp only
  rw [h5]
  dsimp only
  rw [expandTemplate_map_lit]
  have hnl : (chars "\n").length = 1 := rfl
  have hlenrepl : (catStartMark ++ chars "\n" ++ renderSection (computeCats content) ++
      chars "\n" ++ catEndMark).length =
      catStartMark.length + 1 + (renderSection (computeCats content)).length + 1 +
        catEndMark.length := by
    simp only [List.length_append, hnl]
  have htake : List.take p d = List.take p content := by
    rw [hd, List.append_assoc, List.take_left' htkp]
  have hlen1 : (List.take p content ++ (catStartMark ++ chars "\n" ++
      renderSection (computeCats content) ++ chars "\n" ++ catEndMark)).length =
      p + catStartMark.length + 1 + (renderSection (computeCats content)).length +
        1 + catEndMark.length := by
    rw [List.length_append, htkp, hlenrepl]
    omega
  have hdrop : List.drop (p + catStartMark.length + 1 +
      (renderSection (computeCats content)).length + 1 + catEndMark.length) d =
      List.drop (q + catEndMark.length) content := by
    rw [hd]
    exact List.drop_left' hlen1
  rw [htake, hdrop, ← hd]

/-- C6 witness: a well-formed empty-categories document is a fixed point of
the rebuild. -/
theorem rebuild_categories_section_idem_witness :
    rebuild_categories_section docEmptyCategoriesRebuilt =
      some docEmptyCategoriesRebuilt :=
  rebuild_categories_section_idem docEmptyCategories docEmptyCategoriesRebuilt 0 28
    (by decide) (by decide) (by decide) (by decide) (by decide) (by decide) (by decide)

lemma tryBlockAt_digits (s rid body : Chars) (k : Nat)
    (h : tryBlockAt s = some (rid, body, k)) :
    rid ≠ [] ∧ rid.all Char.isDigit = true := by
  unfold tryBlockAt at h
  dsimp only at h
  split_ifs at h with hpre hemp harrow
  rcases hfind : findIn (List.drop arrowMark.length
      (List.drop (List.takeWhile Char.isDigit (List.drop beginMarkPre.length s)).length
        (List.drop beginMarkPre.length s)))
      (endMark (List.takeWhile Char.isDigit (List.drop beginMarkPre.length s)))
      with _ | q <;> rw [hfind] at h
  · cases h
  · dsimp only at h
    cases h
    constructor
    · intro he
      rw [← List.isEmpty_iff] at he
      exact hemp he
    · exact List.all_takeWhile

lemma findRunBlocksAux_digits (s : Chars) :
    ∀ (skip : Nat) (b : Chars × Chars), b ∈ findRunBlocksAux skip s →
      b.1 ≠ [] ∧ b.1.all Char.isDigit = true := by
  induction s with
  | nil => intro skip b hb; simp [findRunBlocksAux] at hb
  | cons c rest ih =>
    intro skip b hb
    cases skip with
    | succ sk =>
      simp only [findRunBlocksAux] at hb
      exact ih sk b hb
    | zero =>
      simp only [findRunBlocksAux] at hb
      rcases htry : tryBlockAt (c :: rest) with _ | ⟨rid, body, k⟩ <;> rw [htry] at hb
      · exact ih 0 b hb
      · dsimp only at hb
        rcases List.mem_cons.mp hb with hb1 | hb2
        · subst hb1
          exact tryBlockAt_digits _ _ _ _ htry
        · exact ih (k - 1) b hb2

lemma mem_foldl_insertIfAbsent (l : List (Chars × Chars)) :
    ∀ (acc : List (Chars × Chars)) (x : Chars × Chars),
      x ∈ l.foldl insertIfAbsent acc → x ∈ acc ∨ x ∈ l := by
  induction l with
  | nil => intro acc x h; exact Or.inl h
  | cons pr l ih =>
    intro acc x h
    rw [List.foldl_cons] at h
    rcases ih _ x h with h1 | h1
    · unfold insertIfAbsent at h1
      split_ifs at h1 with hany
      · exact Or.inl h1
      · rcases List.mem_append.mp h1 with h2 | h2
        · exact Or.inl h2
        · rcases List.mem_cons.mp h2 with h3 | h3
          · exact Or.inr (h3 ▸ List.mem_cons_self pr l)
          · cases h3
    · exact Or.inr (List.mem_cons_of_mem pr h1)

/-- C10: every status scan returns only nonempty all-digit run ids; every
entry of the rebuilt index originates from a job of a scanned block, whose id
is therefore all digits; yet split, merge and the status mutations accept
arbitrary id strings, shown on a record with the alphabetic id "ab": split
extracts it, mark_runs_as_error flips it, and merge_run rewrites the
document (returning False only because the verification scan cannot see
non-digit ids). -/
theorem status_scans_numeric_ids_only (content status : Chars) :
    (∀ rid, rid ∈ get_runs_by_status content status →
      rid ≠ [] ∧ rid.all Char.isDigit = true)
    ∧ (∀ pr, pr ∈ computeCats content →
        ∃ b, b ∈ findRunBlocks content ∧ b.1 ≠ [] ∧ b.1.all Char.isDigit = true ∧
          ∃ jb, jb ∈ findJobs b.2 ∧ jobEntry jb = some pr)
    ∧ List.lookup (chars "ab") (split_progress docAlphaId [chars "ab"]) =
        some docAlphaId
    ∧ findRunBlocks docAlphaId = []
    ∧ mark_runs_as_error docAlphaId [chars "ab"] ≠ docAlphaId
    ∧ (merge_run docAlphaId runFileAlphaDone (chars "ab") (chars "done")).map
        Prod.fst = some false := by
  refine ⟨?_, ?_, by decide, by decide, by decide, by decide⟩
  · intro rid hr
    unfold get_runs_by_status findRunBlocks at hr
    rw [List.mem_map] at hr
    obtain ⟨b, hb, hbe⟩ := hr
    rw [List.mem_filter] at hb
    have hd := findRunBlocksAux_digits content 0 b hb.1
    rwa [hbe] at hd
  · intro pr hpr
    rw [computeCats_eq_foldl] at hpr
    rcases mem_foldl_insertIfAbsent _ _ _ hpr with h1 | h1
    · cases h1
    · unfold catPairs at h1
      rw [List.mem_flatMap] at h1
      obtain ⟨b, hb, hjb⟩ := h1
      rw [List.mem_filter] at hb
      rw [List.mem_filterMap] at hjb
      obtain ⟨jb, hjb1, hjb2⟩ := hjb
      have hd := findRunBlocksAux_digits content 0 b hb.1
      exact ⟨b, hb.1, hd.1, hd.2, jb, hjb1, hjb2⟩

/-- C10 witness: the done scan of a concrete document returns the digit id 3. -/
theorem status_scans_numeric_ids_only_witness :
    (chars "3") ≠ [] ∧ (chars "3").all Char.isDigit = true :=
  (status_scans_numeric_ids_only docDoneOnly (chars "done")).1 (chars "3") (by decide)

end Flakectl

